import Mathlib

/-!
Verification of the Qwen3-TTS OpenAI-compatible FastAPI server against its
natural-language specification.

The visible source (`api/main.py`) is process bootstrap: the lifespan hook
with its best-effort model warm-up, the root page handler and the health
endpoint.  Those are embedded directly from the source.  The synthesis core
(model loader, text normalizer, orchestrator, audio encoder) lives in
`routers/openai_compatible.py`, which is not part of the visible source;
those components are modelled from the specification text, as noted on each
definition.
-/

set_option maxHeartbeats 1000000
set_option linter.unusedVariables false

namespace Qwen3TTS

/-! ## Model loader (spec section 4.1 and section 9) -/

/-- Identifier of a request-handling task calling the loader. -/
abbrev CallerId := Nat

/-- Identity of a loaded inference engine instance. -/
abbrev ModelHandle := Nat

/-- Modelled from the spec: the loader state machine of section 9 —
Uninitialized, Initializing (with its list of blocked waiters), Ready
(holding the shared handle), Failed.  The implementing module
`routers/openai_compatible.py` is not in the visible source. -/
inductive LoaderState where
  | uninitialized : LoaderState
  | initializing (waiters : List CallerId) : LoaderState
  | ready (h : ModelHandle) : LoaderState
  | failed : LoaderState
deriving DecidableEq

/-- Events of the loader transition system: a caller invokes getEngine,
an in-flight construction completes, or an in-flight construction fails. -/
inductive LoaderEvent where
  | call (c : CallerId) : LoaderEvent
  | constructOk (h : ModelHandle) : LoaderEvent
  | constructFail : LoaderEvent
deriving DecidableEq

/-- Observations accumulated over a loader run: how many times an
underlying model construction was triggered, which handle each caller
received, and which callers were surfaced a ModelLoadError. -/
structure LoaderObs where
  constructions : Nat
  delivered : List (CallerId × ModelHandle)
  errored : List CallerId
deriving DecidableEq

/-- The empty observation record at the start of a run. -/
def LoaderObs.empty : LoaderObs := { constructions := 0, delivered := [], errored := [] }

/-- Modelled from the spec: one transition of the loader state machine
(section 4.1).  A call in the uninitialized or failed state triggers a
construction; a call during an in-flight construction blocks the caller as
a waiter without re-triggering; a call in the ready state delivers the
shared handle at once.  Construction completion releases every waiter with
the same handle; construction failure surfaces the error to every waiter
and leaves the loader in the failed state. -/
def loaderStep : LoaderState × LoaderObs → LoaderEvent → LoaderState × LoaderObs
  | (LoaderState.uninitialized, obs), LoaderEvent.call c =>
      (LoaderState.initializing [c], { obs with constructions := obs.constructions + 1 })
  | (LoaderState.initializing ws, obs), LoaderEvent.call c =>
      (LoaderState.initializing (ws ++ [c]), obs)
  | (LoaderState.ready h, obs), LoaderEvent.call c =>
      (LoaderState.ready h, { obs with delivered := obs.delivered ++ [(c, h)] })
  | (LoaderState.failed, obs), LoaderEvent.call c =>
      (LoaderState.initializing [c], { obs with constructions := obs.constructions + 1 })
  | (LoaderState.initializing ws, obs), LoaderEvent.constructOk h =>
      (LoaderState.ready h, { obs with delivered := obs.delivered ++ ws.map (fun c => (c, h)) })
  | (st, obs), LoaderEvent.constructOk _ => (st, obs)
  | (LoaderState.initializing ws, obs), LoaderEvent.constructFail =>
      (LoaderState.failed, { obs with errored := obs.errored ++ ws })
  | (st, obs), LoaderEvent.constructFail => (st, obs)

/-- Run the loader from a given state over a sequence of events. -/
def loaderRunFrom (s : LoaderState × LoaderObs) (events : List LoaderEvent) :
    LoaderState × LoaderObs :=
  events.foldl loaderStep s

/-- Run the loader from process start (uninitialized, nothing observed). -/
def loaderRun (events : List LoaderEvent) : LoaderState × LoaderObs :=
  loaderRunFrom (LoaderState.uninitialized, LoaderObs.empty) events

/-! ## Text normalizer (spec section 4.2) -/

/-- Whitespace characters handled by the normalizer. -/
def isWsChar (c : Char) : Bool := c == ' ' || c == '\t' || c == '\n' || c == '\r'

/-- Modelled from the spec: the model's supported symbol set (the exact set
is not given by the spec or the visible source; modelled as printable ASCII
together with the whitespace characters, which the whitespace-collapsing
stage handles). -/
def supportedChar (c : Char) : Bool := isWsChar c || (32 ≤ c.toNat && c.toNat ≤ 126)

/-- Modelled from the spec: collapse every run of consecutive whitespace
characters to a single space. -/
def collapseWs : List Char → List Char
  | [] => []
  | [c] => if isWsChar c then [' '] else [c]
  | c :: c2 :: cs =>
      if isWsChar c && isWsChar c2 then collapseWs (c2 :: cs)
      else (if isWsChar c then ' ' else c) :: collapseWs (c2 :: cs)

/-- Drop leading whitespace characters. -/
def trimLeft : List Char → List Char
  | [] => []
  | c :: cs => if isWsChar c then trimLeft cs else c :: cs

/-- Drop trailing whitespace characters. -/
def trimRight (l : List Char) : List Char := (trimLeft l.reverse).reverse

/-- Drop leading and trailing whitespace characters. -/
def trimBoth (l : List Char) : List Char := trimRight (trimLeft l)

/-- Modelled from the spec: the pure text transformation of the normalizer —
strip characters outside the supported symbol set (the drop policy),
collapse consecutive whitespace to a single space, trim leading/trailing
whitespace.  Stripping precedes collapsing so that dropping an unsupported
symbol between two spaces cannot leave a double space (the spec demands
idempotence). -/
def normalizeText (t : List Char) : List Char :=
  trimBoth (collapseWs (t.filter supportedChar))

/-- Invariant of whitespace-collapsed text: every whitespace character is a
plain space and no two whitespace characters are adjacent. -/
def wsFlat : List Char → Bool
  | [] => true
  | [c] => !isWsChar c || c == ' '
  | c :: c2 :: cs =>
      (!isWsChar c || c == ' ') && !(isWsChar c && isWsChar c2) && wsFlat (c2 :: cs)

/-- Error taxonomy of spec section 7. -/
inductive SynthError where
  | validation (msg : String)
  | modelLoad (msg : String)
  | inference (msg : String)
  | encoding (msg : String)
deriving DecidableEq

/-- Modelled from the spec: the configuration struct of section 9 — the
supported voice identifiers, the maximum text length, the bounded speed
range, and the streaming chunk granularity (each emitted chunk holds at
most chunkGran + 1 bytes, so granularity is always positive). -/
structure Config where
  supportedVoices : List String
  maxTextLen : Nat
  minSpeed : ℚ
  maxSpeed : ℚ
  chunkGran : Nat
deriving DecidableEq

/-- Modelled from the spec: normalize(text, voice) — the pure transformation
followed by re-validation, rejecting with ValidationError when the
normalized text is empty or exceeds the configured maximum length. -/
def normalize (cfg : Config) (text : List Char) (voice : String) :
    Except SynthError (List Char) :=
  let cleaned := normalizeText text
  if cleaned.isEmpty then Except.error (SynthError.validation "empty text")
  else if cfg.maxTextLen < cleaned.length then
    Except.error (SynthError.validation "text too long")
  else Except.ok cleaned

/-- Ambient mutable context a normalizer call could in principle read or
write: a random seed and an I/O trace. -/
structure World where
  rngSeed : Nat
  ioTrace : List String
deriving DecidableEq

/-- Modelled from the spec: a normalizer call run in an ambient world.  The
spec states the normalizer is a pure function with no I/O, so the call
neither reads nor writes the world. -/
def normalizeRun (cfg : Config) (w : World) (text : List Char) (voice : String) :
    (Except SynthError (List Char)) × World :=
  (normalize cfg text voice, w)

/-! ## Audio encoder (spec section 4.4) -/

/-- The six supported response formats (spec section 3). -/
inductive ResponseFormat where
  | mp3
  | opus
  | aac
  | flac
  | wav
  | pcm
deriving DecidableEq

/-- Parse the responseFormat field of a request against the supported set. -/
def parseFormat : String → Option ResponseFormat
  | "mp3" => some ResponseFormat.mp3
  | "opus" => some ResponseFormat.opus
  | "aac" => some ResponseFormat.aac
  | "flac" => some ResponseFormat.flac
  | "wav" => some ResponseFormat.wav
  | "pcm" => some ResponseFormat.pcm
  | _ => none

/-- Declared content-type for each response format. -/
def contentType : ResponseFormat → String
  | ResponseFormat.mp3 => "audio/mpeg"
  | ResponseFormat.opus => "audio/opus"
  | ResponseFormat.aac => "audio/aac"
  | ResponseFormat.flac => "audio/flac"
  | ResponseFormat.wav => "audio/wav"
  | ResponseFormat.pcm => "audio/pcm"

/-- PCM samples produced by one inference call, tagged with sample rate and
channel count (spec section 3). -/
structure RawAudioBuffer where
  samples : List Int
  sampleRate : Nat
  channels : Nat
deriving DecidableEq

/-- A 16-bit PCM sample as two little-endian bytes. -/
def sampleBytes (s : Int) : List Nat :=
  [(s % 65536).toNat % 256, (s % 65536).toNat / 256]

/-- The raw PCM payload of a buffer. -/
def pcmBytes (raw : RawAudioBuffer) : List Nat :=
  (raw.samples.map sampleBytes).flatten

/-- A natural number as four little-endian bytes. -/
def natLE4 (n : Nat) : List Nat :=
  [n % 256, n / 256 % 256, n / 65536 % 256, n / 16777216 % 256]

/-- Modelled from the spec: container/codec framing bytes per format,
preserving the buffer's sample rate and channel count (wav carries them in
its header; pcm is raw passthrough; the codec formats carry their magic
tags — the codecs themselves are modelled as deterministic framings of the
payload). -/
def formatHeader (raw : RawAudioBuffer) : ResponseFormat → List Nat
  | ResponseFormat.wav => [82, 73, 70, 70] ++ natLE4 raw.sampleRate ++ natLE4 raw.channels
  | ResponseFormat.pcm => []
  | ResponseFormat.mp3 => [73, 68, 51]
  | ResponseFormat.aac => [255, 241]
  | ResponseFormat.opus => [79, 112, 117, 115]
  | ResponseFormat.flac => [102, 76, 97, 67]

/-- Modelled from the spec: the complete encoded byte sequence for a raw
buffer in a format — framing followed by payload. -/
def encodeBytes (raw : RawAudioBuffer) (fmt : ResponseFormat) : List Nat :=
  formatHeader raw fmt ++ pcmBytes raw

/-- Split a byte sequence into consecutive chunks of n + 1 bytes (the last
chunk may be shorter); n + 1 keeps the granularity positive. -/
def chunksOf (n : Nat) : List Nat → List (List Nat)
  | [] => []
  | c :: cs => (c :: cs).take (n + 1) :: chunksOf n (cs.drop n)
termination_by l => l.length
decreasing_by simp [List.length_drop]; omega

/-- Modelled from the spec: the streaming side of the encoder — the encoded
bytes emitted as an ordered sequence of chunks. -/
def encodeChunks (cfg : Config) (raw : RawAudioBuffer) (fmt : ResponseFormat) :
    List (List Nat) :=
  chunksOf cfg.chunkGran (encodeBytes raw fmt)

/-- Modelled from the spec: the non-streaming side of the encoder — one
complete buffer. -/
def encodeBuffer (raw : RawAudioBuffer) (fmt : ResponseFormat) : List Nat :=
  encodeBytes raw fmt

/-! ## Synthesis orchestrator (spec section 4.3) -/

/-- A synthesis request as received at the API boundary (spec section 3);
voice and responseFormat arrive as strings and are validated against the
supported sets. -/
structure SynthesisRequest where
  text : List Char
  voice : String
  responseFormat : String
  speed : ℚ
  stream : Bool
deriving DecidableEq

/-- The inference engine: normalized text, voice and speed to a raw audio
buffer or an inference failure. -/
abbrev InferFn := List Char → String → ℚ → Except String RawAudioBuffer

/-- The orchestrator's result: a complete buffer or a chunk stream, each
with its declared content-type. -/
inductive SynthOutput where
  | buffer (ct : String) (bytes : List Nat)
  | chunkStream (ct : String) (chunks : List (List Nat))
deriving DecidableEq

/-- Modelled from the spec: step 1 of the orchestrator — validate the
request fields against the supported enums and numeric ranges, failing
fast with ValidationError. -/
def validateFields (cfg : Config) (req : SynthesisRequest) :
    Except SynthError ResponseFormat :=
  if req.voice ∈ cfg.supportedVoices then
    match parseFormat req.responseFormat with
    | some fmt =>
        if cfg.minSpeed ≤ req.speed ∧ req.speed ≤ cfg.maxSpeed then Except.ok fmt
        else Except.error (SynthError.validation "speed out of range")
    | none => Except.error (SynthError.validation "unsupported response_format")
  else Except.error (SynthError.validation "unsupported voice")

/-- Modelled from the spec: the orchestrator pipeline of section 4.3 —
validate, normalize, acquire the engine, infer, encode.  The engine
argument is the outcome of getEngine() (none when model loading failed);
the second component counts how many times inference was invoked, the
instrumentation counter the spec's testable properties refer to. -/
def synthesize (cfg : Config) (engine : Option InferFn) (req : SynthesisRequest) :
    (Except SynthError SynthOutput) × Nat :=
  match validateFields cfg req with
  | Except.error e => (Except.error e, 0)
  | Except.ok fmt =>
    match normalize cfg req.text req.voice with
    | Except.error e => (Except.error e, 0)
    | Except.ok ntext =>
      match engine with
      | none => (Except.error (SynthError.modelLoad "engine failed to initialize"), 0)
      | some infer =>
        match infer ntext req.voice req.speed with
        | Except.error msg => (Except.error (SynthError.inference msg), 1)
        | Except.ok raw =>
          if req.stream then
            (Except.ok (SynthOutput.chunkStream (contentType fmt)
              (encodeChunks cfg raw fmt)), 1)
          else
            (Except.ok (SynthOutput.buffer (contentType fmt) (encodeBuffer raw fmt)), 1)

/-! ## Process bootstrap, embedded from api/main.py -/

/-- Observable log events of the lifespan startup hook (api/main.py lines
36-62): the banner and URL prints, the pre-load start print, and the two
outcomes of the warm-up try/except. -/
inductive LogEvent where
  | banner
  | preloadStart
  | preloadOk
  | preloadNote (msg : String)
deriving DecidableEq

/-- Outcome of the awaited get_tts_model() warm-up call: a loaded handle,
or an exception with its message. -/
inductive WarmupOutcome where
  | ok (h : ModelHandle)
  | raised (msg : String)
deriving DecidableEq

/-- Result of running the startup half of the lifespan hook: the printed
log, whether startup reached the yield (i.e. completed normally), and the
loader state left behind for later requests. -/
structure LifespanStart where
  log : List LogEvent
  startupCompleted : Bool
  loader : LoaderState × LoaderObs
deriving DecidableEq

/-- Embedded from api/main.py lifespan (lines 32-64): print the banner,
then try the eager warm-up `await get_tts_model()` inside a try/except that
prints a note and falls through when the call raises any exception; the
hook then yields, i.e. startup completes, in both cases.  The warm-up is
modelled as a loader run by caller 0 whose construction either completes
or fails. -/
def lifespanStartup (outcome : WarmupOutcome) : LifespanStart :=
  match outcome with
  | WarmupOutcome.ok h =>
      { log := [LogEvent.banner, LogEvent.preloadStart, LogEvent.preloadOk],
        startupCompleted := true,
        loader := loaderRun [LoaderEvent.call 0, LoaderEvent.constructOk h] }
  | WarmupOutcome.raised msg =>
      { log := [LogEvent.banner, LogEvent.preloadStart, LogEvent.preloadNote msg],
        startupCompleted := true,
        loader := loaderRun [LoaderEvent.call 0, LoaderEvent.constructFail] }

/-- Response body of the health endpoint. -/
structure HealthResponse where
  status : String
deriving DecidableEq

/-- Embedded from api/main.py health_check (lines 170-173): the handler
returns the constant object; it takes the loader state as an argument to
express that it does not consult it. -/
def health_check (loaderSt : LoaderState) : HealthResponse :=
  { status := "healthy" }

/-- The two possible bodies of the root page handler. -/
inductive RootResponse where
  | fileIndex (path : String)
  | inlineFallback
deriving DecidableEq

/-- A missing-file error at the HTTP layer. -/
inductive HttpError where
  | missingFile (path : String)
deriving DecidableEq

/-- Embedded from api/main.py root (lines 124-167): when static/index.html
exists the handler serves it as a file response, otherwise it returns the
fixed inline fallback page (the constant HTML literal of lines 132-167);
no branch raises a missing-file error. -/
def root (indexExists : Bool) : Except HttpError RootResponse :=
  if indexExists then Except.ok (RootResponse.fileIndex "static/index.html")
  else Except.ok RootResponse.inlineFallback

/-- Decidable equality of Except results, used to evaluate the pipeline on
concrete inputs. -/
instance decEqExcept {ε α : Type} [DecidableEq ε] [DecidableEq α] :
    DecidableEq (Except ε α) := fun a b =>
  match a, b with
  | Except.ok x, Except.ok y => decidable_of_iff (x = y) (by simp)
  | Except.error x, Except.error y => decidable_of_iff (x = y) (by simp)
  | Except.ok _, Except.error _ => isFalse (by simp)
  | Except.error _, Except.ok _ => isFalse (by simp)

/-! ## Concrete fixtures used by the witnesses -/

/-- A concrete configuration: the voice the visible source quotes in its
usage example, a 4096-character limit, speed range zero to four, four-byte
streaming chunks. -/
def cfgEx : Config :=
  { supportedVoices := ["Vivian"], maxTextLen := 4096,
    minSpeed := 0, maxSpeed := 4, chunkGran := 3 }

/-- A concrete deterministic engine producing a three-sample buffer. -/
def engineEx : Option InferFn :=
  some (fun t v s =>
    Except.ok { samples := [1, -2, 3], sampleRate := 24000, channels := 1 })

/-- A concrete valid request. -/
def reqEx : SynthesisRequest :=
  { text := ['H', 'i'], voice := "Vivian", responseFormat := "wav",
    speed := 1, stream := false }

end Qwen3TTS

namespace Qwen3TTS

/-! ## Lemmas about the loader -/

theorem loaderRunFrom_append (s : LoaderState × LoaderObs) (es fs : List LoaderEvent) :
    loaderRunFrom s (es ++ fs) = loaderRunFrom (loaderRunFrom s es) fs := by
  simp [loaderRunFrom, List.foldl_append]

theorem loaderRun_append (es fs : List LoaderEvent) :
    loaderRun (es ++ fs) = loaderRunFrom (loaderRun es) fs := by
  simp [loaderRun, loaderRunFrom_append]

theorem loaderRunFrom_calls_initializing (cs : List CallerId) (ws : List CallerId)
    (obs : LoaderObs) :
    loaderRunFrom (LoaderState.initializing ws, obs) (cs.map LoaderEvent.call) =
      (LoaderState.initializing (ws ++ cs), obs) := by
  induction cs generalizing ws with
  | nil => simp [loaderRunFrom]
  | cons c cs ih =>
      show loaderRunFrom (LoaderState.initializing (ws ++ [c]), obs) (cs.map LoaderEvent.call) =
        (LoaderState.initializing (ws ++ c :: cs), obs)
      rw [ih]
      simp

/-- C1 core lemma: from the uninitialized state, a nonempty burst of calls
leaves the loader initializing with exactly those callers as waiters and a
single construction triggered. -/
theorem loaderRun_calls_from_uninitialized (c : CallerId) (cs : List CallerId) :
    loaderRun ((c :: cs).map LoaderEvent.call) =
      (LoaderState.initializing (c :: cs),
       { constructions := 1, delivered := [], errored := [] }) := by
  show loaderRunFrom (LoaderState.initializing [c],
      { LoaderObs.empty with constructions := LoaderObs.empty.constructions + 1 })
      (cs.map LoaderEvent.call) = _
  rw [loaderRunFrom_calls_initializing]
  simp [LoaderObs.empty]

/-- C1: for every set of K concurrent calls to getEngine() made before any
prior successful load, exactly one underlying model construction is
triggered, the concurrent callers block as waiters of that single
construction instead of re-triggering it, and once construction completes
all K callers receive the same ModelHandle. -/
theorem getEngine_at_most_once_init (cs : List CallerId) (h : ModelHandle)
    (hne : cs ≠ []) :
    (loaderRun (cs.map LoaderEvent.call)).1 = LoaderState.initializing cs ∧
    (loaderRun (cs.map LoaderEvent.call)).2.constructions = 1 ∧
    (loaderRun (cs.map LoaderEvent.call ++ [LoaderEvent.constructOk h])).1 =
      LoaderState.ready h ∧
    (loaderRun (cs.map LoaderEvent.call ++ [LoaderEvent.constructOk h])).2.constructions = 1 ∧
    ∀ c ∈ cs,
      (c, h) ∈ (loaderRun (cs.map LoaderEvent.call ++ [LoaderEvent.constructOk h])).2.delivered := by
  obtain ⟨c0, cs', rfl⟩ : ∃ c0 cs', cs = c0 :: cs' := by
    cases cs with
    | nil => exact absurd rfl hne
    | cons a l => exact ⟨a, l, rfl⟩
  have hrun := loaderRun_calls_from_uninitialized c0 cs'
  have happ : loaderRun ((c0 :: cs').map LoaderEvent.call ++ [LoaderEvent.constructOk h]) =
      (LoaderState.ready h,
       { constructions := 1,
         delivered := (c0 :: cs').map (fun c => (c, h)), errored := [] }) := by
    rw [loaderRun_append, hrun]
    simp [loaderRunFrom, loaderStep]
  refine ⟨by rw [hrun], by rw [hrun], by rw [happ], by rw [happ], ?_⟩
  intro c hc
  rw [happ]
  simp only [List.mem_map]
  exact ⟨c, hc, rfl⟩

/-- Witness for C1 at three concurrent callers and handle 7. -/
theorem getEngine_at_most_once_init_witness :
    (loaderRun ([0, 1, 2].map LoaderEvent.call)).1 = LoaderState.initializing [0, 1, 2] ∧
    (loaderRun ([0, 1, 2].map LoaderEvent.call)).2.constructions = 1 ∧
    (loaderRun ([0, 1, 2].map LoaderEvent.call ++ [LoaderEvent.constructOk 7])).1 =
      LoaderState.ready 7 ∧
    (loaderRun ([0, 1, 2].map LoaderEvent.call ++ [LoaderEvent.constructOk 7])).2.constructions = 1 ∧
    ∀ c ∈ [0, 1, 2],
      (c, 7) ∈ (loaderRun ([0, 1, 2].map LoaderEvent.call ++
        [LoaderEvent.constructOk 7])).2.delivered :=
  getEngine_at_most_once_init [0, 1, 2] 7 (by decide)

/-- C4: a construction failure leaves the loader in the failed state, from
which the next getEngine() call re-attempts construction (the construction
counter increases), and a subsequent successful construction still reaches
the ready state and delivers the handle to that caller — failure never
permanently poisons the loader. -/
theorem loader_not_poisoned (pre : List LoaderEvent) (c : CallerId) (h : ModelHandle)
    (hfail : (loaderRun pre).1 = LoaderState.failed) :
    (loaderRun (pre ++ [LoaderEvent.call c])).1 = LoaderState.initializing [c] ∧
    (loaderRun (pre ++ [LoaderEvent.call c])).2.constructions =
      (loaderRun pre).2.constructions + 1 ∧
    (loaderRun (pre ++ [LoaderEvent.call c, LoaderEvent.constructOk h])).1 =
      LoaderState.ready h ∧
    (c, h) ∈ (loaderRun (pre ++ [LoaderEvent.call c, LoaderEvent.constructOk h])).2.delivered := by
  have hr : loaderRun pre = (LoaderState.failed, (loaderRun pre).2) := by
    rw [← hfail]
  refine ⟨?_, ?_, ?_, ?_⟩ <;> rw [loaderRun_append, hr] <;> simp [loaderRunFrom, loaderStep]

/-- Witness for C4: a run whose first construction fails, then retried. -/
theorem loader_not_poisoned_witness :
    (loaderRun ([LoaderEvent.call 0, LoaderEvent.constructFail] ++ [LoaderEvent.call 1])).1 =
      LoaderState.initializing [1] ∧
    (loaderRun ([LoaderEvent.call 0, LoaderEvent.constructFail] ++ [LoaderEvent.call 1])).2.constructions =
      (loaderRun [LoaderEvent.call 0, LoaderEvent.constructFail]).2.constructions + 1 ∧
    (loaderRun ([LoaderEvent.call 0, LoaderEvent.constructFail] ++
        [LoaderEvent.call 1, LoaderEvent.constructOk 5])).1 = LoaderState.ready 5 ∧
    (1, 5) ∈ (loaderRun ([LoaderEvent.call 0, LoaderEvent.constructFail] ++
        [LoaderEvent.call 1, LoaderEvent.constructOk 5])).2.delivered :=
  loader_not_poisoned [LoaderEvent.call 0, LoaderEvent.constructFail] 1 5 (by decide)

/-! ## Lemmas about validation and the orchestrator -/

theorem validateFields_error_validation (cfg : Config) (req : SynthesisRequest)
    (e : SynthError) (h : validateFields cfg req = Except.error e) :
    ∃ m, e = SynthError.validation m := by
  by_cases hv : req.voice ∈ cfg.supportedVoices
  · cases hpf : parseFormat req.responseFormat with
    | none =>
        simp [validateFields, hv, hpf] at h
        exact ⟨_, h.symm⟩
    | some fmt =>
        by_cases hs : cfg.minSpeed ≤ req.speed ∧ req.speed ≤ cfg.maxSpeed
        · simp [validateFields, hv, hpf, hs] at h
        · simp [validateFields, hv, hpf, hs] at h
          exact ⟨_, h.symm⟩
  · simp [validateFields, hv] at h
    exact ⟨_, h.symm⟩

theorem validateFields_ok_parse (cfg : Config) (req : SynthesisRequest)
    (fmt : ResponseFormat) (h : validateFields cfg req = Except.ok fmt) :
    parseFormat req.responseFormat = some fmt := by
  by_cases hv : req.voice ∈ cfg.supportedVoices
  · cases hpf : parseFormat req.responseFormat with
    | none => simp [validateFields, hv, hpf] at h
    | some fmt2 =>
        by_cases hs : cfg.minSpeed ≤ req.speed ∧ req.speed ≤ cfg.maxSpeed
        · simp [validateFields, hv, hpf, hs] at h
          rw [h]
        · simp [validateFields, hv, hpf, hs] at h
  · simp [validateFields, hv] at h

/-- C2: a request whose voice or responseFormat is outside the supported
sets, or whose speed violates its range, fails with ValidationError and
the inference counter stays at zero — no model work occurs. -/
theorem validation_rejects_before_inference (cfg : Config) (engine : Option InferFn)
    (req : SynthesisRequest)
    (hbad : req.voice ∉ cfg.supportedVoices ∨ parseFormat req.responseFormat = none ∨
      ¬(cfg.minSpeed ≤ req.speed ∧ req.speed ≤ cfg.maxSpeed)) :
    (∃ msg, (synthesize cfg engine req).1 = Except.error (SynthError.validation msg)) ∧
    (synthesize cfg engine req).2 = 0 := by
  have hval : ∃ msg, validateFields cfg req = Except.error (SynthError.validation msg) := by
    rcases hbad with h | h | h
    · exact ⟨"unsupported voice", by simp [validateFields, h]⟩
    · by_cases hv : req.voice ∈ cfg.supportedVoices
      · exact ⟨"unsupported response_format", by simp [validateFields, hv, h]⟩
      · exact ⟨"unsupported voice", by simp [validateFields, hv]⟩
    · by_cases hv : req.voice ∈ cfg.supportedVoices
      · cases hpf : parseFormat req.responseFormat with
        | none => exact ⟨"unsupported response_format", by simp [validateFields, hv, hpf]⟩
        | some fmt => exact ⟨"speed out of range", by simp [validateFields, hv, hpf, h]⟩
      · exact ⟨"unsupported voice", by simp [validateFields, hv]⟩
  obtain ⟨msg, hmsg⟩ := hval
  refine ⟨⟨msg, ?_⟩, ?_⟩ <;> simp [synthesize, hmsg]

/-- Witness for C2: an unsupported voice on an otherwise valid request. -/
theorem validation_rejects_before_inference_witness :
    (∃ msg, (synthesize cfgEx engineEx { reqEx with voice := "Bob" }).1 =
      Except.error (SynthError.validation msg)) ∧
    (synthesize cfgEx engineEx { reqEx with voice := "Bob" }).2 = 0 :=
  validation_rejects_before_inference cfgEx engineEx { reqEx with voice := "Bob" }
    (Or.inl (by decide))

/-- C8: a request whose normalized text is empty or longer than the
configured maximum fails with ValidationError at the normalizer, the
orchestrator surfaces a ValidationError, and the inference counter stays
at zero. -/
theorem normalize_empty_or_long_rejected (cfg : Config) (engine : Option InferFn)
    (req : SynthesisRequest)
    (hbad : (normalizeText req.text).isEmpty = true ∨
      cfg.maxTextLen < (normalizeText req.text).length) :
    (∃ m1, normalize cfg req.text req.voice = Except.error (SynthError.validation m1)) ∧
    (∃ m2, (synthesize cfg engine req).1 = Except.error (SynthError.validation m2)) ∧
    (synthesize cfg engine req).2 = 0 := by
  have hnorm : ∃ m1, normalize cfg req.text req.voice =
      Except.error (SynthError.validation m1) := by
    rcases hbad with h | h
    · exact ⟨"empty text", by simp [normalize, h]⟩
    · by_cases he : (normalizeText req.text).isEmpty
      · exact ⟨"empty text", by simp [normalize, he]⟩
      · exact ⟨"text too long", by simp [normalize, he, h]⟩
  obtain ⟨m1, hm1⟩ := hnorm
  refine ⟨⟨m1, hm1⟩, ?_, ?_⟩
  · cases hval : validateFields cfg req with
    | error e =>
        obtain ⟨m, rfl⟩ := validateFields_error_validation cfg req e hval
        exact ⟨m, by simp [synthesize, hval]⟩
    | ok fmt => exact ⟨m1, by simp [synthesize, hval, hm1]⟩
  · cases hval : validateFields cfg req with
    | error e => simp [synthesize, hval]
    | ok fmt => simp [synthesize, hval, hm1]

/-- Witness for C8: the empty-text request with voice Vivian and format
wav is rejected with ValidationError and never reaches inference. -/
theorem normalize_empty_or_long_rejected_witness :
    (∃ m1, normalize cfgEx [] "Vivian" = Except.error (SynthError.validation m1)) ∧
    (∃ m2, (synthesize cfgEx engineEx { reqEx with text := [] }).1 =
      Except.error (SynthError.validation m2)) ∧
    (synthesize cfgEx engineEx { reqEx with text := [] }).2 = 0 :=
  normalize_empty_or_long_rejected cfgEx engineEx { reqEx with text := [] }
    (Or.inl (by decide))

/-- C7: the normalizer is deterministic — a call in any two ambient worlds
yields the same result for the same text and voice, and leaves the world
untouched (no hidden randomness, no I/O). -/
theorem normalize_deterministic :
    ∀ (cfg : Config) (t : List Char) (v : String) (w1 w2 : World),
      (normalizeRun cfg w1 t v).1 = (normalizeRun cfg w2 t v).1 ∧
      (normalizeRun cfg w1 t v).2 = w1 :=
  fun _ _ _ _ _ => ⟨rfl, rfl⟩

/-! ## Streaming versus buffered output -/

theorem flatten_chunksOf (n : Nat) (l : List Nat) : (chunksOf n l).flatten = l := by
  have H : ∀ (k : Nat) (l : List Nat), l.length ≤ k → (chunksOf n l).flatten = l := by
    intro k
    induction k with
    | zero =>
        intro l hl
        rw [List.length_eq_zero.mp (Nat.le_zero.mp hl)]
        simp [chunksOf]
    | succ k ih =>
        intro l hl
        cases l with
        | nil => simp [chunksOf]
        | cons c cs =>
            simp only [chunksOf, List.flatten_cons]
            rw [ih (cs.drop n) (by simp only [List.length_drop]; simp at hl; omega)]
            simp [List.take_succ_cons]
  exact H l.length l le_rfl

/-- C5: if the non-streaming run of a request returns a buffer, then its
declared content-type is the one of the requested responseFormat, the
streaming run of the identical request succeeds with the same
content-type, and concatenating its chunks yields exactly the buffer's
bytes (byte-exact for every format in this deterministic codec model, in
particular for wav and pcm). -/
theorem stream_concat_eq_buffer (cfg : Config) (engine : Option InferFn)
    (req : SynthesisRequest) (ct : String) (bytes : List Nat)
    (hbuf : (synthesize cfg engine { req with stream := false }).1 =
      Except.ok (SynthOutput.buffer ct bytes)) :
    ∃ fmt chunks,
      parseFormat req.responseFormat = some fmt ∧
      ct = contentType fmt ∧
      (synthesize cfg engine { req with stream := true }).1 =
        Except.ok (SynthOutput.chunkStream ct chunks) ∧
      chunks.flatten = bytes := by
  cases hval : validateFields cfg { req with stream := false } with
  | error e => simp [synthesize, hval] at hbuf
  | ok fmt =>
    cases hnorm : normalize cfg req.text req.voice with
    | error e => simp [synthesize, hval, hnorm] at hbuf
    | ok ntext =>
      cases engine with
      | none => simp [synthesize, hval, hnorm] at hbuf
      | some f =>
        cases hinf : f ntext req.voice req.speed with
        | error m => simp [synthesize, hval, hnorm, hinf] at hbuf
        | ok raw =>
          have hbuf2 : contentType fmt = ct ∧ encodeBuffer raw fmt = bytes := by
            have := hbuf
            simp [synthesize, hval, hnorm, hinf] at this
            exact this
          obtain ⟨hct, hbytes⟩ := hbuf2
          have hval1 : validateFields cfg { req with stream := true } = Except.ok fmt := hval
          refine ⟨fmt, encodeChunks cfg raw fmt, ?_, hct.symm, ?_, ?_⟩
          · exact validateFields_ok_parse cfg { req with stream := false } fmt hval
          · simp [synthesize, hval1, hnorm, hinf, hct]
          · rw [← hbytes]
            exact flatten_chunksOf cfg.chunkGran (encodeBytes raw fmt)

/-- Witness for C5 at the concrete fixture request: the wav run. -/
theorem stream_concat_eq_buffer_witness :
    ∃ fmt chunks,
      parseFormat reqEx.responseFormat = some fmt ∧
      "audio/wav" = contentType fmt ∧
      (synthesize cfgEx engineEx { reqEx with stream := true }).1 =
        Except.ok (SynthOutput.chunkStream "audio/wav" chunks) ∧
      chunks.flatten =
        [82, 73, 70, 70, 192, 93, 0, 0, 1, 0, 0, 0, 1, 0, 254, 255, 3, 0] :=
  stream_concat_eq_buffer cfgEx engineEx reqEx "audio/wav"
    [82, 73, 70, 70, 192, 93, 0, 0, 1, 0, 0, 0, 1, 0, 254, 255, 3, 0] (by decide)

/-! ## Bootstrap theorems -/

/-- C3: a warm-up failure at process start is caught by the lifespan hook:
startup completes normally in every case, the failure is logged as a note,
and the loader is left in a state from which the first real request
re-triggers construction (lazy loading). -/
theorem lifespan_warmup_nonfatal :
    (∀ o : WarmupOutcome, (lifespanStartup o).startupCompleted = true) ∧
    ∀ msg : String,
      LogEvent.preloadNote msg ∈ (lifespanStartup (WarmupOutcome.raised msg)).log ∧
      (lifespanStartup (WarmupOutcome.raised msg)).loader.1 = LoaderState.failed ∧
      ∀ c : CallerId,
        (loaderStep ((lifespanStartup (WarmupOutcome.raised msg)).loader)
          (LoaderEvent.call c)).1 = LoaderState.initializing [c] := by
  refine ⟨fun o => ?_, fun msg => ⟨?_, rfl, fun c => rfl⟩⟩
  · cases o <;> rfl
  · simp [lifespanStartup]

/-! ## Idempotence of normalization -/

theorem wsFlat_tail (c : Char) (cs : List Char) (h : wsFlat (c :: cs) = true) :
    wsFlat cs = true := by
  cases cs with
  | nil => rfl
  | cons c2 cs2 =>
      simp only [wsFlat, Bool.and_eq_true] at h
      exact h.2

theorem wsFlat_append_right (s t : List Char) (h : wsFlat (s ++ t) = true) :
    wsFlat t = true := by
  induction s with
  | nil => exact h
  | cons c s ih => exact ih (wsFlat_tail c (s ++ t) h)

theorem wsFlat_append_left (s t : List Char) (h : wsFlat (s ++ t) = true) :
    wsFlat s = true := by
  induction s with
  | nil => rfl
  | cons c s ih =>
      cases s with
      | nil =>
          cases t with
          | nil => exact h
          | cons d t2 =>
              simp only [List.cons_append, List.nil_append, wsFlat, Bool.and_eq_true] at h
              simp only [wsFlat]
              exact h.1.1
      | cons c2 s2 =>
          simp only [List.cons_append, wsFlat, Bool.and_eq_true] at h ⊢
          exact ⟨h.1, ih h.2⟩

theorem collapseWs_cons_nonWs (c : Char) (cs : List Char) (hc : isWsChar c = false) :
    collapseWs (c :: cs) = c :: collapseWs cs := by
  cases cs with
  | nil => simp [collapseWs, hc]
  | cons c2 cs2 => simp [collapseWs, hc]

theorem mem_collapseWs (l : List Char) (c : Char) (h : c ∈ collapseWs l) :
    c ∈ l ∨ c = ' ' := by
  induction l with
  | nil => simp [collapseWs] at h
  | cons a cs ih =>
      cases cs with
      | nil =>
          by_cases ha : isWsChar a = true
          · simp [collapseWs, ha] at h
            exact Or.inr h
          · simp [collapseWs, ha] at h
            exact Or.inl (by simp [h])
      | cons a2 cs2 =>
          by_cases hb : (isWsChar a && isWsChar a2) = true
          · simp only [collapseWs, if_pos hb] at h
            rcases ih h with h2 | h2
            · exact Or.inl (List.mem_cons_of_mem a h2)
            · exact Or.inr h2
          · simp only [collapseWs, if_neg hb] at h
            rcases List.mem_cons.mp h with h2 | h2
            · subst h2
              by_cases ha : isWsChar a = true
              · simp [ha]
              · simp [ha]
            · rcases ih h2 with h3 | h3
              · exact Or.inl (List.mem_cons_of_mem a h3)
              · exact Or.inr h3

theorem wsFlat_cons_nonWs (a : Char) (rest : List Char) (ha : isWsChar a = false)
    (h : wsFlat rest = true) : wsFlat (a :: rest) = true := by
  cases rest with
  | nil => simp [wsFlat, ha]
  | cons b bs => simp [wsFlat, ha, h]

theorem wsFlat_cons_space (rest : List Char) (h : wsFlat rest = true)
    (hhead : ∀ b bs, rest = b :: bs → isWsChar b = false) :
    wsFlat (' ' :: rest) = true := by
  cases rest with
  | nil => decide
  | cons b bs =>
      have hb := hhead b bs rfl
      simp only [wsFlat, Bool.and_eq_true]
      exact ⟨⟨by decide, by simp [hb]⟩, h⟩

theorem wsFlat_collapseWs (l : List Char) : wsFlat (collapseWs l) = true := by
  induction l with
  | nil => rfl
  | cons a cs ih =>
      cases cs with
      | nil =>
          by_cases ha : isWsChar a = true <;> simp [collapseWs, ha, wsFlat]
      | cons a2 cs2 =>
          by_cases hb : (isWsChar a && isWsChar a2) = true
          · simp only [collapseWs, if_pos hb]
            exact ih
          · simp only [collapseWs, if_neg hb]
            by_cases ha : isWsChar a = true
            · have ha2 : isWsChar a2 = false := by
                cases h2 : isWsChar a2
                · rfl
                · rw [ha, h2] at hb
                  exact absurd rfl hb
              rw [if_pos ha]
              refine wsFlat_cons_space _ ih ?_
              intro b bs heq
              rw [collapseWs_cons_nonWs a2 cs2 ha2] at heq
              injection heq with h1 h2
              subst h1
              exact ha2
            · rw [if_neg ha]
              exact wsFlat_cons_nonWs a _ (by simpa using ha) ih

theorem collapseWs_eq_self (l : List Char) (h : wsFlat l = true) : collapseWs l = l := by
  induction l with
  | nil => rfl
  | cons a cs ih =>
      cases cs with
      | nil =>
          by_cases ha : isWsChar a = true
          · have ha2 : a = ' ' := by
              simp only [wsFlat] at h
              rw [ha] at h
              simpa using h
            simp [collapseWs, ha, ha2]
          · simp [collapseWs, ha]
      | cons a2 cs2 =>
          simp only [wsFlat, Bool.and_eq_true] at h
          obtain ⟨⟨hA, hB⟩, hC⟩ := h
          have hb : ¬((isWsChar a && isWsChar a2) = true) := by
            intro hx
            rw [hx] at hB
            simp at hB
          simp only [collapseWs, if_neg hb]
          rw [ih hC]
          by_cases ha : isWsChar a = true
          · rw [ha] at hA
            simp only [Bool.not_true, Bool.false_or] at hA
            have ha2 : a = ' ' := by simpa using hA
            simp [ha, ha2]
          · simp [ha]

theorem trimLeft_head_not_ws (l : List Char) (c : Char) (cs : List Char)
    (h : trimLeft l = c :: cs) : isWsChar c = false := by
  induction l with
  | nil => simp [trimLeft] at h
  | cons a as ih =>
      cases ha : isWsChar a with
      | true => exact ih (by simpa [trimLeft, ha] using h)
      | false =>
          simp only [trimLeft, ha] at h
          injection h with h1 h2
          subst h1
          exact ha

theorem trimLeft_suffix (l : List Char) : ∃ s, l = s ++ trimLeft l := by
  induction l with
  | nil => exact ⟨[], rfl⟩
  | cons a as ih =>
      cases ha : isWsChar a with
      | true =>
          obtain ⟨s, hs⟩ := ih
          refine ⟨a :: s, ?_⟩
          rw [show trimLeft (a :: as) = trimLeft as by simp [trimLeft, ha]]
          rw [List.cons_append, ← hs]
      | false => exact ⟨[], by simp [trimLeft, ha]⟩

theorem mem_trimLeft (l : List Char) (c : Char) (h : c ∈ trimLeft l) : c ∈ l := by
  obtain ⟨s, hs⟩ := trimLeft_suffix l
  rw [hs]
  exact List.mem_append_right s h

theorem wsFlat_trimLeft (l : List Char) (h : wsFlat l = true) :
    wsFlat (trimLeft l) = true := by
  obtain ⟨s, hs⟩ := trimLeft_suffix l
  exact wsFlat_append_right s _ (by rw [← hs]; exact h)

theorem trimRight_prefix (l : List Char) : ∃ t, l = trimRight l ++ t := by
  obtain ⟨s, hs⟩ := trimLeft_suffix l.reverse
  refine ⟨s.reverse, ?_⟩
  have h2 := congrArg List.reverse hs
  simpa [trimRight, List.reverse_append] using h2

theorem mem_trimRight (l : List Char) (c : Char) (h : c ∈ trimRight l) : c ∈ l := by
  simp only [trimRight, List.mem_reverse] at h
  have h2 := mem_trimLeft l.reverse c h
  simpa using h2

theorem wsFlat_trimRight (l : List Char) (h : wsFlat l = true) :
    wsFlat (trimRight l) = true := by
  obtain ⟨t, ht⟩ := trimRight_prefix l
  exact wsFlat_append_left _ t (by rw [← ht]; exact h)

theorem trimBoth_head_not_ws (l : List Char) (c : Char) (cs : List Char)
    (h : trimBoth l = c :: cs) : isWsChar c = false := by
  obtain ⟨t, ht⟩ := trimRight_prefix (trimLeft l)
  have h2 : trimLeft l = c :: (cs ++ t) := by
    rw [ht]
    have h3 : trimRight (trimLeft l) = c :: cs := h
    rw [h3]
    rfl
  exact trimLeft_head_not_ws l c (cs ++ t) h2

theorem trimBoth_reverse_head_not_ws (l : List Char) (c : Char) (cs : List Char)
    (h : (trimBoth l).reverse = c :: cs) : isWsChar c = false := by
  have h2 : trimLeft (trimLeft l).reverse = c :: cs := by
    have h3 : (trimBoth l).reverse = trimLeft (trimLeft l).reverse := by
      simp [trimBoth, trimRight]
    rw [← h3]
    exact h
  exact trimLeft_head_not_ws _ c cs h2

theorem trimLeft_eq_self (l : List Char)
    (h : ∀ c cs, l = c :: cs → isWsChar c = false) : trimLeft l = l := by
  cases l with
  | nil => rfl
  | cons a as => simp [trimLeft, h a as rfl]

theorem trimBoth_eq_self (l : List Char)
    (hh : ∀ c cs, l = c :: cs → isWsChar c = false)
    (hr : ∀ c cs, l.reverse = c :: cs → isWsChar c = false) : trimBoth l = l := by
  have h1 : trimLeft l = l := trimLeft_eq_self l hh
  show trimRight (trimLeft l) = l
  rw [h1]
  show (trimLeft l.reverse).reverse = l
  rw [trimLeft_eq_self l.reverse hr]
  exact List.reverse_reverse l

theorem normalizeText_idem (x : List Char) :
    normalizeText (normalizeText x) = normalizeText x := by
  have hflat : wsFlat (normalizeText x) = true :=
    wsFlat_trimRight _ (wsFlat_trimLeft _ (wsFlat_collapseWs (x.filter supportedChar)))
  have hsup : ∀ c ∈ normalizeText x, supportedChar c = true := by
    intro c hc
    have hc2 : c ∈ collapseWs (x.filter supportedChar) :=
      mem_trimLeft (collapseWs (x.filter supportedChar)) c
        (mem_trimRight (trimLeft (collapseWs (x.filter supportedChar))) c hc)
    rcases mem_collapseWs _ c hc2 with h2 | h2
    · exact (List.mem_filter.mp h2).2
    · rw [h2]
      rfl
  have hhead : ∀ c cs, normalizeText x = c :: cs → isWsChar c = false :=
    fun c cs h => trimBoth_head_not_ws (collapseWs (x.filter supportedChar)) c cs h
  have hrev : ∀ c cs, (normalizeText x).reverse = c :: cs → isWsChar c = false :=
    fun c cs h => trimBoth_reverse_head_not_ws (collapseWs (x.filter supportedChar)) c cs h
  show trimBoth (collapseWs ((normalizeText x).filter supportedChar)) = normalizeText x
  rw [List.filter_eq_self.mpr hsup]
  rw [collapseWs_eq_self _ hflat]
  exact trimBoth_eq_self _ hhead hrev

/-- C6: normalization is idempotent — for every text within the configured
maximum length, applying the normalizer's text transformation twice gives
the same result as applying it once. -/
theorem normalize_idempotent (cfg : Config) (x : List Char)
    (hlen : x.length ≤ cfg.maxTextLen) :
    normalizeText (normalizeText x) = normalizeText x :=
  normalizeText_idem x

/-- Witness for C6 at a concrete messy text. -/
theorem normalize_idempotent_witness :
    normalizeText (normalizeText [' ', 'H', 'i', '\t', '\t', 'y', 'o', 'u', ' ']) =
      normalizeText [' ', 'H', 'i', '\t', '\t', 'y', 'o', 'u', ' '] :=
  normalize_idempotent cfgEx [' ', 'H', 'i', '\t', '\t', 'y', 'o', 'u', ' '] (by decide)

/-- C9: the health endpoint is unconditional — for every loader state
(loaded, loading, failed or untouched) the response is exactly the object
with status "healthy". -/
theorem health_check_unconditional :
    ∀ st : LoaderState, health_check st = { status := "healthy" } :=
  fun _ => rfl

/-- C10: the root handler serves static/index.html when it exists and the
fixed inline fallback page otherwise; on no input does it fail with a
missing-file error. -/
theorem root_total :
    root true = Except.ok (RootResponse.fileIndex "static/index.html") ∧
    root false = Except.ok RootResponse.inlineFallback ∧
    ∀ (b : Bool) (e : HttpError), root b ≠ Except.error e := by
  refine ⟨rfl, rfl, ?_⟩
  intro b e
  cases b <;> simp [root]

end Qwen3TTS
